import Mathlib

/-!
Formal model of the quiz/challenge subsystem of the smart-assistant app.

The definitions below are a shallow embedding of `src/backend/challenge.py`
(quiz generation prompt, JSON response parsing with the regex salvage step,
subjective-question list parsing, objective answer evaluation) and of the
objective-scoring loop in `src/app.py`.  Python strings are modelled as
`List Char`; the embedding is faithful for ASCII text, which is all the
claims exercise (Python `str.lower`, `str.strip`, `re` and `str.splitlines`
additionally handle some non-ASCII characters that never occur here).
-/

/-- Whitespace stripped by Python `str.strip()` (ASCII part). -/
def pyWsChar (c : Char) : Bool :=
  c = ' ' || c = '\t' || c = '\n' || c = '\r' || c = '\x0b' || c = '\x0c'

/-- Whitespace accepted by the JSON grammar (`json` module), per RFC 8259. -/
def jsonWsChar (c : Char) : Bool :=
  c = ' ' || c = '\t' || c = '\n' || c = '\r'

/-- Characters matched by `\s` in Python `re` (ASCII part). -/
def reWsChar (c : Char) : Bool :=
  c = ' ' || c = '\t' || c = '\n' || c = '\r' || c = '\x0b' || c = '\x0c'

/-- Characters of the set `"1234567890). "` passed to `str.lstrip` in
`generate_subjective_questions`. -/
def markerChar (c : Char) : Bool :=
  c.isDigit || c = ')' || c = '.' || c = ' '

/-- Python `str.strip()` on ASCII text: drop whitespace from both ends. -/
def pyStrip (cs : List Char) : List Char :=
  ((cs.dropWhile pyWsChar).reverse.dropWhile pyWsChar).reverse

/-- ASCII lower-casing of one character, as Python `str.lower()` does on ASCII. -/
def pyLowerChar (c : Char) : Char :=
  if 65 ≤ c.toNat ∧ c.toNat ≤ 90 then Char.ofNat (c.toNat + 32) else c

/-- ASCII upper-casing of one character, as Python `str.upper()` does on ASCII. -/
def pyUpperChar (c : Char) : Char :=
  if 97 ≤ c.toNat ∧ c.toNat ≤ 122 then Char.ofNat (c.toNat - 32) else c

/-- Python `str.lower()` on ASCII text. -/
def pyLower (cs : List Char) : List Char :=
  cs.map pyLowerChar

/-- `challenge.evaluate_answer`: case-insensitive comparison after stripping
surrounding whitespace from both arguments
(`user_answer.strip().lower() == correct_answer.strip().lower()`). -/
def evaluate_answer (user_answer correct_answer : List Char) : Bool :=
  pyLower (pyStrip user_answer) == pyLower (pyStrip correct_answer)

/-- The objective-scoring loop of `app.py`: starting from `score = 0`, add one
for every response pair `(user, correct)` with `evaluate_answer(user, correct)`. -/
def scoreObjective (responses : List (List Char × List Char)) : Nat :=
  responses.foldl (fun score r => if evaluate_answer r.1 r.2 then score + 1 else score) 0

/-- The MCQ generation prompt of `challenge.generate_quiz`, an f-string that
embeds `str(num_questions)` and the first 10000 characters of the document. -/
def quizPrompt (document_text : List Char) (num_questions : Nat) : List Char :=
  ("Read the following document and generate " ++ toString num_questions
    ++ " MCQs.\n"
    ++ "Each question should have 4 options and the correct answer clearly marked.\n"
    ++ "Return output strictly in this JSON format:\n\n"
    ++ "[\x7b\"question\": \"...\", \"options\": [\"A\", \"B\", \"C\", \"D\"], \"correct_option\": \"A\"\x7d, ...]\n\n"
    ++ "IMPORTANT: Return only valid JSON. No markdown. No explanation.\n\n"
    ++ "Document:\n").data ++ document_text.take 10000

/-- The prompt of `challenge.generate_subjective_questions`, which embeds
`str(num_questions)` and the first 10000 characters of the document. -/
def subjectivePrompt (document_text : List Char) (num_questions : Nat) : List Char :=
  ("Based on the following document, generate " ++ toString num_questions
    ++ " short-answer or descriptive questions.\n"
    ++ "Return a numbered list of questions ONLY. Do not include answers, comments, or markdown formatting.\n\n"
    ++ "Document:\n").data ++ document_text.take 10000

/-!
JSON values, as produced by Python `json.loads`.  Numbers are kept as their
source token (the claims never involve numeric values, so the int/float
conversion is not modelled); objects are kept as ordered field lists (the
claims never involve duplicate keys, where a Python dict would collapse
entries).
-/

inductive Json where
  | null : Json
  | bool (b : Bool) : Json
  | num (tok : List Char) : Json
  | str (s : List Char) : Json
  | arr (elems : List Json) : Json
  | obj (fields : List (List Char × Json)) : Json

/-- Value of one hexadecimal digit, for `\uXXXX` string escapes. -/
def hexVal (c : Char) : Option Nat :=
  if c.isDigit then some (c.toNat - 48)
  else if 97 ≤ c.toNat ∧ c.toNat ≤ 102 then some (c.toNat - 87)
  else if 65 ≤ c.toNat ∧ c.toNat ≤ 70 then some (c.toNat - 55)
  else none

/-- Body of a JSON string after the opening quote: returns the decoded
characters and the input remaining after the closing quote.  Escapes are
decoded as `json.loads` does (surrogate-pair combination of two `\u` escapes
is not modelled; no claim exercises it).  Raw control characters are
rejected (`strict=True`, the default). -/
def pStr : List Char → Option (List Char × List Char)
  | [] => none
  | c :: cs =>
    if c = '\"' then some ([], cs)
    else if c = '\\' then
      match cs with
      | [] => none
      | e :: cs2 =>
        if e = '\"' then (pStr cs2).map (fun p => ('\"' :: p.1, p.2))
        else if e = '\\' then (pStr cs2).map (fun p => ('\\' :: p.1, p.2))
        else if e = '/' then (pStr cs2).map (fun p => ('/' :: p.1, p.2))
        else if e = 'b' then (pStr cs2).map (fun p => ('\x08' :: p.1, p.2))
        else if e = 'f' then (pStr cs2).map (fun p => ('\x0c' :: p.1, p.2))
        else if e = 'n' then (pStr cs2).map (fun p => ('\n' :: p.1, p.2))
        else if e = 'r' then (pStr cs2).map (fun p => ('\r' :: p.1, p.2))
        else if e = 't' then (pStr cs2).map (fun p => ('\t' :: p.1, p.2))
        else if e = 'u' then
          match cs2 with
          | h1 :: h2 :: h3 :: h4 :: cs3 =>
            match hexVal h1, hexVal h2, hexVal h3, hexVal h4 with
            | some a, some b, some d1, some d2 =>
              (pStr cs3).map (fun p => (Char.ofNat (((a * 16 + b) * 16 + d1) * 16 + d2) :: p.1, p.2))
            | _, _, _, _ => none
          | _ => none
        else none
    else if c.toNat < 32 then none
    else (pStr cs).map (fun p => (c :: p.1, p.2))

/-- Digits of an unsigned JSON number body, per the grammar
`(0|[1-9][0-9]*)(\.[0-9]+)?([eE][+-]?[0-9]+)?` used by `json.loads`. -/
def pNumCore (cs : List Char) : Option (List Char × List Char) :=
  match cs with
  | [] => none
  | c :: rest =>
    if ¬ c.isDigit then none
    else
      let intPart : List Char × List Char :=
        if c = '0' then ([c], rest)
        else (c :: rest.takeWhile Char.isDigit, rest.dropWhile Char.isDigit)
      let withFrac : List Char × List Char :=
        match intPart.2 with
        | '.' :: d :: ds =>
          if d.isDigit then
            (intPart.1 ++ '.' :: d :: ds.takeWhile Char.isDigit, ds.dropWhile Char.isDigit)
          else intPart
        | _ => intPart
      let withExp : List Char × List Char :=
        match withFrac.2 with
        | e :: s :: d :: ds =>
          if (e = 'e' ∨ e = 'E') ∧ (s = '+' ∨ s = '-') ∧ d.isDigit then
            (withFrac.1 ++ e :: s :: d :: ds.takeWhile Char.isDigit, ds.dropWhile Char.isDigit)
          else if (e = 'e' ∨ e = 'E') ∧ s.isDigit then
            (withFrac.1 ++ e :: s :: (d :: ds).takeWhile Char.isDigit, (d :: ds).dropWhile Char.isDigit)
          else withFrac
        | [e, s] =>
          if (e = 'e' ∨ e = 'E') ∧ s.isDigit then (withFrac.1 ++ [e, s], []) else withFrac
        | _ => withFrac
      some withExp

/-- A JSON number token, including the `-Infinity` special value that
`json.loads` accepts by default (`NaN`/`Infinity` are handled at the value
level). -/
def pNum (cs : List Char) : Option (Json × List Char) :=
  match cs with
  | '-' :: rest =>
    match rest with
    | 'I' :: 'n' :: 'f' :: 'i' :: 'n' :: 'i' :: 't' :: 'y' :: r =>
      some (.num ('-' :: "Infinity".data), r)
    | _ => (pNumCore rest).map (fun p => (.num ('-' :: p.1), p.2))
  | _ => (pNumCore cs).map (fun p => (.num p.1, p.2))

mutual

/-- One JSON value, with a fuel bound on recursion depth.  The input is
expected to start at the value (no leading whitespace); whitespace inside
composite values is skipped exactly where the `json` module skips it. -/
def pVal : Nat → List Char → Option (Json × List Char)
  | 0, _ => none
  | _ + 1, [] => none
  | f + 1, c :: cs =>
    if c = '\x7b' then
      match List.dropWhile jsonWsChar cs with
      | '\x7d' :: r2 => some (.obj [], r2)
      | r => (pFields f r).map (fun p => (.obj p.1, p.2))
    else if c = '[' then
      match List.dropWhile jsonWsChar cs with
      | ']' :: r2 => some (.arr [], r2)
      | r => (pItems f r).map (fun p => (.arr p.1, p.2))
    else if c = '\"' then
      (pStr cs).map (fun p => (.str p.1, p.2))
    else if c = 'n' then
      match cs with
      | 'u' :: 'l' :: 'l' :: r => some (.null, r)
      | _ => none
    else if c = 't' then
      match cs with
      | 'r' :: 'u' :: 'e' :: r => some (.bool true, r)
      | _ => none
    else if c = 'f' then
      match cs with
      | 'a' :: 'l' :: 's' :: 'e' :: r => some (.bool false, r)
      | _ => none
    else if c = 'N' then
      match cs with
      | 'a' :: 'N' :: r => some (.num "NaN".data, r)
      | _ => none
    else if c = 'I' then
      match cs with
      | 'n' :: 'f' :: 'i' :: 'n' :: 'i' :: 't' :: 'y' :: r => some (.num "Infinity".data, r)
      | _ => none
    else if c = '-' ∨ c.isDigit then
      pNum (c :: cs)
    else none

/-- Elements of a non-empty JSON array, starting at the first element
(leading whitespace already skipped).  A trailing comma is a parse error,
as in `json.loads`. -/
def pItems : Nat → List Char → Option (List Json × List Char)
  | 0, _ => none
  | f + 1, cs =>
    match pVal f cs with
    | none => none
    | some (v, r1) =>
      match List.dropWhile jsonWsChar r1 with
      | ',' :: r2 =>
        match pItems f (List.dropWhile jsonWsChar r2) with
        | some (vs, r3) => some (v :: vs, r3)
        | none => none
      | ']' :: r2 => some ([v], r2)
      | _ => none

/-- Fields of a non-empty JSON object, starting at the first key (leading
whitespace already skipped).  Keys must be quoted; a trailing comma is a
parse error, as in `json.loads`. -/
def pFields : Nat → List Char → Option (List (List Char × Json) × List Char)
  | 0, _ => none
  | f + 1, cs =>
    match cs with
    | '\"' :: cs1 =>
      match pStr cs1 with
      | none => none
      | some (k, r1) =>
        match List.dropWhile jsonWsChar r1 with
        | ':' :: r2 =>
          match pVal f (List.dropWhile jsonWsChar r2) with
          | none => none
          | some (v, r3) =>
            match List.dropWhile jsonWsChar r3 with
            | ',' :: r4 =>
              match pFields f (List.dropWhile jsonWsChar r4) with
              | some (fs, r5) => some ((k, v) :: fs, r5)
              | none => none
            | '\x7d' :: r4 => some ([(k, v)], r4)
            | _ => none
        | _ => none
    | _ => none

end

/-- Python `json.loads` on ASCII text: parse one value, allowing surrounding
whitespace and rejecting any other trailing data.  The fuel `2*n+2` exceeds
the recursion any input of length `n` can perform, so it never cuts a parse
short (each two units of fuel consume at least one input character). -/
def json_loads (cs : List Char) : Option Json :=
  match pVal (2 * cs.length + 2) (List.dropWhile jsonWsChar cs) with
  | some (v, rest) => if List.dropWhile jsonWsChar rest = [] then some v else none
  | none => none

/-!
The salvage step of `generate_quiz`:
`re.search(r'\[\s*\x7b.*\x7d\s*\]', content, re.DOTALL)`.

The pattern is anchored nowhere, so `re.search` tries every start position
from the left; a match must begin at a `[` whose next non-`\s` character is
`\x7b` (the `\s*` between them admits nothing else), and — because `.*` is
greedy and `re.DOTALL` lets `.` cross newlines — it extends to the last
`\x7d` that is followed by whitespace and a `]`.  If the first such `[` has
no closing `\x7d\s*\]` after its `\x7b`, no later start position can have
one either, so there is no match at all.
-/

/-- First suffix of the input that begins at a `[` whose next non-whitespace
character is `\x7b` — the only possible start of a regex match. -/
def findStart : List Char → Option (List Char)
  | [] => none
  | c :: rest =>
    if c = '[' ∧ (List.dropWhile reWsChar rest).head? = some '\x7b' then some (c :: rest)
    else findStart rest

/-- Longest prefix of the input that ends in `\x7d`, whitespace, `]` — how the
greedy `.*\x7d\s*\]` tail of the pattern ends.  Returns that prefix
(including the closing bracket), preferring the latest possible `\x7d`. -/
def greedyEnd : List Char → Option (List Char)
  | [] => none
  | c :: rest =>
    if c = '\x7d' then
      match greedyEnd rest with
      | some m => some (c :: m)
      | none =>
        match List.dropWhile reWsChar rest with
        | ']' :: _ => some (c :: (List.takeWhile reWsChar rest ++ [']']))
        | _ => none
    else (greedyEnd rest).map (fun m => c :: m)

/-- `match.group(0)` of the salvage regex search, when it matches. -/
def salvageMatch (content : List Char) : Option (List Char) :=
  match findStart content with
  | none => none
  | some ('[' :: r) =>
    match List.dropWhile reWsChar r with
    | '\x7b' :: body =>
      match greedyEnd body with
      | some m => some ('[' :: (List.takeWhile reWsChar r ++ '\x7b' :: m))
      | none => none
    | _ => none
  | some _ => none

/-- The two failure modes of quiz parsing in `generate_quiz`: the explicit
`RuntimeError("Gemini returned non-JSON or invalid quiz format.")` raised
when the regex finds nothing, and the `json.JSONDecodeError` that propagates
when the salvaged substring (recorded here) still fails strict parsing.
Both are re-raised by the outer handler as
`RuntimeError(f"Gemini quiz generation error: ...")`. -/
inductive QuizError where
  | invalidFormat : QuizError
  | decodeError (salvaged : List Char) : QuizError

/-- The user-visible message of the `RuntimeError` raised when both parse
attempts fail and the regex found no candidate substring. -/
def invalidFormatMessage : List Char :=
  "Gemini quiz generation error: Gemini returned non-JSON or invalid quiz format.".data

/-- The parsing portion of `challenge.generate_quiz` (lines 41-55), applied
to the raw model text: strip it, try `json.loads` directly, fall back to the
regex salvage, and otherwise fail.  No validation of the parsed value is
performed — whatever JSON parses is returned. -/
def parse_quiz (raw : List Char) : Except QuizError Json :=
  let content := pyStrip raw
  match json_loads content with
  | some v => .ok v
  | none =>
    match salvageMatch content with
    | some sub =>
      match json_loads sub with
      | some v => .ok v
      | none => .error (.decodeError sub)
    | none => .error .invalidFormat

/-- Does the needle occur as a contiguous substring of the haystack?  Used to
state what diagnostic information an error message carries. -/
def containsSub (needle : List Char) : List Char → Bool
  | [] => needle.isEmpty
  | c :: rest => needle.isPrefixOf (c :: rest) || containsSub needle rest

/-- Worker for Python `str.splitlines()`: `acc` holds the current line in
reverse.  Every line-break character (`\r\n` counting as one break) ends a
line; a final segment with no terminator forms a line only when non-empty. -/
def splitlinesGo : List Char → List Char → List (List Char)
  | acc, [] => if acc.isEmpty then [] else [acc.reverse]
  | acc, '\r' :: '\n' :: rest => acc.reverse :: splitlinesGo [] rest
  | acc, c :: rest =>
    if c = '\n' ∨ c = '\r' ∨ c = '\x0b' ∨ c = '\x0c' ∨ c = '\x1c' ∨ c = '\x1d' ∨ c = '\x1e' then
      acc.reverse :: splitlinesGo [] rest
    else splitlinesGo (c :: acc) rest

/-- Python `str.splitlines()` on ASCII text. -/
def splitlines (cs : List Char) : List (List Char) :=
  splitlinesGo [] cs

/-- The list-comprehension parsing step of `generate_subjective_questions`
(lines 77-78): for each line of the raw text that is non-blank before any
stripping, remove leading characters from the set `"1234567890). "`, strip
surrounding whitespace, and keep the first `num_questions` results. -/
def parse_question_list (raw : List Char) (num_questions : Nat) : List (List Char) :=
  ((splitlines raw).filterMap (fun line =>
    if (pyStrip line).isEmpty then none
    else some (pyStrip (line.dropWhile markerChar)))).take num_questions

/-- The same computation written from the specification text: split into
lines, drop blank lines, strip the enumeration marker and surrounding
whitespace from each remaining line, truncate to the requested count.  Used
to compare the source comprehension against the spec wording. -/
def questionListSpec (raw : List Char) (num_questions : Nat) : List (List Char) :=
  (((splitlines raw).filter (fun line => !(pyStrip line).isEmpty)).map
    (fun line => pyStrip (line.dropWhile markerChar))).take num_questions

/-!
The MCQ record of the data model, together with a canonical JSON
serialization.  `serMCQ q` is the compact rendering
`\x7b"question":...,"options":[...],"correct_option":...\x7d`; a list of
records serializes to an array of such objects.  These serializations are
the representative "valid JSON array of objects" payloads used to state the
round-trip claims.
-/

structure MCQ where
  question : List Char
  options : List (List Char)
  correct_option : List Char

/-- A character that needs no escaping inside a JSON string literal. -/
def plainChar (c : Char) : Bool :=
  if c = '\"' ∨ c = '\\' ∨ c.toNat < 32 then false else true

/-- A string of unescaped characters. -/
def plainStr (s : List Char) : Bool :=
  s.all plainChar

/-- An MCQ whose three fields need no JSON string escaping. -/
def plainMCQ (q : MCQ) : Bool :=
  plainStr q.question && q.options.all plainStr && plainStr q.correct_option

/-- Quote a plain string as a JSON string literal. -/
def quoteStr (s : List Char) : List Char :=
  '\"' :: (s ++ ['\"'])

/-- Elements of a serialized JSON array of strings, including the closing
bracket. -/
def serItemsStr : List (List Char) → List Char
  | [] => [']']
  | [x] => quoteStr x ++ [']']
  | x :: xs => quoteStr x ++ ',' :: serItemsStr xs

/-- A serialized JSON array of strings. -/
def serArrStr (xs : List (List Char)) : List Char :=
  '[' :: serItemsStr xs

/-- The serialized fields of one MCQ object (without the surrounding
braces). -/
def serMCQFields (q : MCQ) : List Char :=
  quoteStr "question".data ++ ':' :: quoteStr q.question
    ++ ',' :: quoteStr "options".data ++ ':' :: serArrStr q.options
    ++ ',' :: quoteStr "correct_option".data ++ ':' :: quoteStr q.correct_option

/-- One MCQ as a serialized JSON object. -/
def serMCQ (q : MCQ) : List Char :=
  '\x7b' :: (serMCQFields q ++ ['\x7d'])

/-- Elements of a serialized JSON array of MCQ objects, including the
closing bracket. -/
def serQuizItems : List MCQ → List Char
  | [] => [']']
  | [q] => serMCQ q ++ [']']
  | q :: qs => serMCQ q ++ ',' :: serQuizItems qs

/-- A quiz as a serialized JSON array of MCQ objects. -/
def serQuiz (qs : List MCQ) : List Char :=
  '[' :: serQuizItems qs

/-- The JSON value that `json.loads` yields for one serialized MCQ. -/
def jsonOfMCQ (q : MCQ) : Json :=
  .obj [("question".data, .str q.question),
        ("options".data, .arr (q.options.map .str)),
        ("correct_option".data, .str q.correct_option)]

/-- The JSON value that `json.loads` yields for a serialized quiz. -/
def jsonOfQuiz (qs : List MCQ) : Json :=
  .arr (qs.map jsonOfMCQ)

/-- Leading prose and markdown fence placed before a payload, as a chatty
model would produce. -/
def wrapPre : List Char :=
  "Here is the quiz you asked for:\n```json\n".data

/-- Trailing fence and prose placed after a payload. -/
def wrapPost : List Char :=
  "\n```\nLet me know if you need anything else.".data

/-- A payload wrapped in leading/trailing prose and a markdown code fence. -/
def wrapModelText (payload : List Char) : List Char :=
  wrapPre ++ payload ++ wrapPost

/-!
Helper lemmas: list scanning and the JSON round-trip for serialized quizzes.
-/

theorem dropWhile_cons_neg {p : Char → Bool} {c : Char} (l : List Char) (h : p c = false) :
    List.dropWhile p (c :: l) = c :: l := by
  simp [List.dropWhile_cons, h]

theorem takeWhile_cons_neg {p : Char → Bool} {c : Char} (l : List Char) (h : p c = false) :
    List.takeWhile p (c :: l) = [] := by
  simp [List.takeWhile_cons, h]

theorem dropWhile_all_append (w l : List Char) {p : Char → Bool}
    (hw : ∀ c ∈ w, p c = true) :
    List.dropWhile p (w ++ l) = List.dropWhile p l := by
  induction w with
  | nil => simp
  | cons c cs ih =>
    rw [List.cons_append, List.dropWhile_cons, if_pos (hw c (by simp))]
    exact ih (fun d hd => hw d (by simp [hd]))

theorem plainChar_spec {c : Char} (h : plainChar c = true) :
    c ≠ '\"' ∧ c ≠ '\\' ∧ ¬ c.toNat < 32 := by
  rw [plainChar] at h
  split at h
  · simp at h
  · tauto

theorem pStr_plain (s rest : List Char) (h : plainStr s = true) :
    pStr (s ++ '\"' :: rest) = some (s, rest) := by
  induction s with
  | nil =>
    rw [List.nil_append, pStr.eq_def]
    simp
  | cons c s ih =>
    rw [plainStr, List.all_cons, Bool.and_eq_true] at h
    obtain ⟨h1, h2, h3⟩ := plainChar_spec h.1
    rw [List.cons_append, pStr.eq_def]
    simp [if_neg h1, if_neg h2, if_neg h3, ih h.2]

theorem pVal_openBrace (f : Nat) (cs : List Char) :
    pVal (f + 1) ('\x7b' :: cs) =
      (match List.dropWhile jsonWsChar cs with
        | '\x7d' :: r2 => some (.obj [], r2)
        | r => (pFields f r).map (fun p => (.obj p.1, p.2))) := rfl

theorem pVal_openBracket (f : Nat) (cs : List Char) :
    pVal (f + 1) ('[' :: cs) =
      (match List.dropWhile jsonWsChar cs with
        | ']' :: r2 => some (.arr [], r2)
        | r => (pItems f r).map (fun p => (.arr p.1, p.2))) := rfl

theorem pVal_quoteChar (f : Nat) (cs : List Char) :
    pVal (f + 1) ('\"' :: cs) = (pStr cs).map (fun p => (.str p.1, p.2)) := rfl

theorem pItems_succ (f : Nat) (cs : List Char) :
    pItems (f + 1) cs =
      (match pVal f cs with
        | none => none
        | some (v, r1) =>
          match List.dropWhile jsonWsChar r1 with
          | ',' :: r2 =>
            match pItems f (List.dropWhile jsonWsChar r2) with
            | some (vs, r3) => some (v :: vs, r3)
            | none => none
          | ']' :: r2 => some ([v], r2)
          | _ => none) := rfl

theorem pFields_succ (f : Nat) (cs : List Char) :
    pFields (f + 1) cs =
      (match cs with
        | '\"' :: cs1 =>
          match pStr cs1 with
          | none => none
          | some (k, r1) =>
            match List.dropWhile jsonWsChar r1 with
            | ':' :: r2 =>
              match pVal f (List.dropWhile jsonWsChar r2) with
              | none => none
              | some (v, r3) =>
                match List.dropWhile jsonWsChar r3 with
                | ',' :: r4 =>
                  match pFields f (List.dropWhile jsonWsChar r4) with
                  | some (fs, r5) => some ((k, v) :: fs, r5)
                  | none => none
                | '\x7d' :: r4 => some ([(k, v)], r4)
                | _ => none
            | _ => none
        | _ => none) := rfl

theorem pVal_quote (f : Nat) (s rest : List Char) (h : plainStr s = true) :
    pVal (f + 1) (quoteStr s ++ rest) = some (.str s, rest) := by
  have hq : quoteStr s ++ rest = '\"' :: (s ++ '\"' :: rest) := by
    simp [quoteStr]
  rw [hq, pVal_quoteChar, pStr_plain s rest h]
  rfl

theorem serItemsStr_cons_quote (y : List Char) (ys : List (List Char)) :
    ∃ t, serItemsStr (y :: ys) = '\"' :: t := by
  cases ys with
  | nil => exact ⟨y ++ ['\"'] ++ [']'], by simp [serItemsStr, quoteStr]⟩
  | cons z zs => exact ⟨y ++ ['\"'] ++ ',' :: serItemsStr (z :: zs), by simp [serItemsStr, quoteStr]⟩

theorem pItems_strs (xs : List (List Char)) (x : List Char) (f : Nat) (rest : List Char)
    (hx : plainStr x = true) (hxs : xs.all plainStr = true) (hf : xs.length + 2 ≤ f) :
    pItems f (serItemsStr (x :: xs) ++ rest) = some ((x :: xs).map Json.str, rest) := by
  induction xs generalizing x f rest with
  | nil =>
    obtain ⟨h, rfl⟩ : ∃ h, f = h + 2 := ⟨f - 2, by omega⟩
    have hser : serItemsStr [x] ++ rest = quoteStr x ++ (']' :: rest) := by
      simp [serItemsStr]
    rw [hser, pItems_succ, pVal_quote _ _ _ hx]
    simp [dropWhile_cons_neg _ (by decide : jsonWsChar ']' = false)]
  | cons y ys ih =>
    obtain ⟨h, rfl⟩ : ∃ h, f = h + 2 := ⟨f - 2, by omega⟩
    rw [List.all_cons, Bool.and_eq_true] at hxs
    have hser : serItemsStr (x :: y :: ys) ++ rest
        = quoteStr x ++ (',' :: (serItemsStr (y :: ys) ++ rest)) := by
      simp [serItemsStr]
    rw [hser, pItems_succ, pVal_quote _ _ _ hx]
    obtain ⟨t, ht⟩ := serItemsStr_cons_quote y ys
    have hdrop : List.dropWhile jsonWsChar (serItemsStr (y :: ys) ++ rest)
        = serItemsStr (y :: ys) ++ rest := by
      rw [ht]
      exact dropWhile_cons_neg _ (by decide)
    simp only [dropWhile_cons_neg _ (by decide : jsonWsChar ',' = false), hdrop]
    rw [ih y (h + 1) rest hxs.1 hxs.2 (by simp at hf ⊢; omega)]
    simp

theorem pVal_serArrStr (f : Nat) (xs : List (List Char)) (rest : List Char)
    (hxs : xs.all plainStr = true) (hf : xs.length + 3 ≤ f) :
    pVal f (serArrStr xs ++ rest) = some (.arr (xs.map Json.str), rest) := by
  obtain ⟨g, rfl⟩ : ∃ g, f = g + 1 := ⟨f - 1, by omega⟩
  have hser : serArrStr xs ++ rest = '[' :: (serItemsStr xs ++ rest) := by
    simp [serArrStr]
  rw [hser, pVal_openBracket]
  cases xs with
  | nil => simp [serItemsStr, dropWhile_cons_neg _ (by decide : jsonWsChar ']' = false)]
  | cons y ys =>
    rw [List.all_cons, Bool.and_eq_true] at hxs
    obtain ⟨t, ht⟩ := serItemsStr_cons_quote y ys
    have hdrop : List.dropWhile jsonWsChar (serItemsStr (y :: ys) ++ rest)
        = serItemsStr (y :: ys) ++ rest := by
      rw [ht]
      exact dropWhile_cons_neg _ (by decide)
    rw [hdrop]
    have hred : (match serItemsStr (y :: ys) ++ rest with
        | ']' :: r2 => some (Json.arr [], r2)
        | r => Option.map (fun p => (Json.arr p.1, p.2)) (pItems g r))
        = Option.map (fun p => (Json.arr p.1, p.2))
            (pItems g (serItemsStr (y :: ys) ++ rest)) := by
      rw [ht, List.cons_append]
      rfl
    rw [hred, pItems_strs ys y g rest hxs.1 hxs.2 (by simp at hf ⊢; omega)]
    simp

theorem pFields_field_last (f : Nat) (k V rest : List Char) (v : Json)
    (hk : plainStr k = true)
    (hV : ∀ r, pVal f (V ++ r) = some (v, r))
    (hVhead : ∃ c V2, V = c :: V2 ∧ jsonWsChar c = false) :
    pFields (f + 1) (quoteStr k ++ ':' :: (V ++ '\x7d' :: rest)) = some ([(k, v)], rest) := by
  obtain ⟨c, V2, rfl, hc⟩ := hVhead
  have hin : quoteStr k ++ ':' :: ((c :: V2) ++ '\x7d' :: rest)
      = '\"' :: (k ++ '\"' :: (':' :: (c :: (V2 ++ '\x7d' :: rest)))) := by
    simp [quoteStr]
  rw [hin, pFields_succ]
  have hv := hV ('\x7d' :: rest)
  rw [List.cons_append] at hv
  simp only [pStr_plain k _ hk]
  simp [dropWhile_cons_neg _ (by decide : jsonWsChar ':' = false),
        dropWhile_cons_neg _ hc, hv,
        dropWhile_cons_neg _ (by decide : jsonWsChar '\x7d' = false)]

theorem pFields_field_cons (f : Nat) (k V tail rest2 : List Char) (v : Json)
    (fs : List (List Char × Json))
    (hk : plainStr k = true)
    (hV : ∀ r, pVal f (V ++ r) = some (v, r))
    (hVhead : ∃ c V2, V = c :: V2 ∧ jsonWsChar c = false)
    (htail : ∃ t2, tail = '\"' :: t2)
    (hrec : pFields f tail = some (fs, rest2)) :
    pFields (f + 1) (quoteStr k ++ ':' :: (V ++ ',' :: tail)) = some ((k, v) :: fs, rest2) := by
  obtain ⟨c, V2, rfl, hc⟩ := hVhead
  obtain ⟨t2, rfl⟩ := htail
  have hin : quoteStr k ++ ':' :: ((c :: V2) ++ ',' :: ('\"' :: t2))
      = '\"' :: (k ++ '\"' :: (':' :: (c :: (V2 ++ ',' :: ('\"' :: t2))))) := by
    simp [quoteStr]
  rw [hin, pFields_succ]
  have hv := hV (',' :: ('\"' :: t2))
  rw [List.cons_append] at hv
  simp only [pStr_plain k _ hk]
  simp [dropWhile_cons_neg _ (by decide : jsonWsChar ':' = false),
        dropWhile_cons_neg _ hc, hv,
        dropWhile_cons_neg _ (by decide : jsonWsChar ',' = false),
        dropWhile_cons_neg _ (by decide : jsonWsChar '\"' = false), hrec]

theorem quoteStr_head (s : List Char) : ∃ t, quoteStr s = '\"' :: t ∧ jsonWsChar '\"' = false :=
  ⟨s ++ ['\"'], rfl, by decide⟩

theorem pVal_quote_all (g : Nat) (s : List Char) (hs : plainStr s = true) (hg : 1 ≤ g) :
    ∀ r, pVal g (quoteStr s ++ r) = some (.str s, r) := by
  obtain ⟨g1, rfl⟩ : ∃ g1, g = g1 + 1 := ⟨g - 1, by omega⟩
  exact fun r => pVal_quote g1 s r hs

theorem pFields_mcq (f : Nat) (q : MCQ) (rest : List Char)
    (hq : plainMCQ q = true) (hf : q.options.length + 6 ≤ f) :
    pFields f (serMCQFields q ++ '\x7d' :: rest)
      = some ([("question".data, .str q.question),
               ("options".data, .arr (q.options.map .str)),
               ("correct_option".data, .str q.correct_option)], rest) := by
  rw [plainMCQ, Bool.and_eq_true, Bool.and_eq_true] at hq
  obtain ⟨⟨hq1, hq2⟩, hq3⟩ := hq
  obtain ⟨g, rfl⟩ : ∃ g, f = g + 3 := ⟨f - 3, by omega⟩
  have hsplit : serMCQFields q ++ '\x7d' :: rest
      = quoteStr "question".data ++ ':' :: (quoteStr q.question
        ++ ',' :: (quoteStr "options".data ++ ':' :: (serArrStr q.options
        ++ ',' :: (quoteStr "correct_option".data ++ ':' :: (quoteStr q.correct_option
        ++ '\x7d' :: rest))))) := by
    simp [serMCQFields]
  rw [hsplit]
  have hlast : pFields (g + 1)
      (quoteStr "correct_option".data ++ ':' :: (quoteStr q.correct_option ++ '\x7d' :: rest))
      = some ([("correct_option".data, .str q.correct_option)], rest) := by
    refine pFields_field_last g _ _ rest _ (by decide)
      (pVal_quote_all g _ hq3 (by omega)) ?_
    obtain ⟨t, ht, hw⟩ := quoteStr_head q.correct_option
    exact ⟨'\"', t, ht, hw⟩
  have hmid : pFields (g + 2)
      (quoteStr "options".data ++ ':' :: (serArrStr q.options
        ++ ',' :: (quoteStr "correct_option".data ++ ':' :: (quoteStr q.correct_option
        ++ '\x7d' :: rest))))
      = some ([("options".data, .arr (q.options.map .str)),
               ("correct_option".data, .str q.correct_option)], rest) := by
    refine pFields_field_cons (g + 1) _ _ _ rest _ _ (by decide)
      (fun r => pVal_serArrStr (g + 1) q.options r
        (by simp [plainStr] at hq2 ⊢; exact hq2) (by simp at hf ⊢; omega)) ?_ ?_ hlast
    · exact ⟨'[', serItemsStr q.options, rfl, by decide⟩
    · obtain ⟨t, ht, _⟩ := quoteStr_head "correct_option".data
      exact ⟨t ++ ':' :: (quoteStr q.correct_option ++ '\x7d' :: rest), by
        rw [ht]; simp⟩
  refine pFields_field_cons (g + 2) _ _ _ rest _ _ (by decide)
    (pVal_quote_all (g + 2) _ hq1 (by omega)) ?_ ?_ hmid
  · obtain ⟨t, ht, hw⟩ := quoteStr_head q.question
    exact ⟨'\"', t, ht, hw⟩
  · obtain ⟨t, ht, _⟩ := quoteStr_head "options".data
    exact ⟨t ++ ':' :: (serArrStr q.options
      ++ ',' :: (quoteStr "correct_option".data ++ ':' :: (quoteStr q.correct_option
      ++ '\x7d' :: rest))), by rw [ht]; simp⟩

theorem pVal_serMCQ (f : Nat) (q : MCQ) (rest : List Char)
    (hq : plainMCQ q = true) (hf : q.options.length + 7 ≤ f) :
    pVal f (serMCQ q ++ rest) = some (jsonOfMCQ q, rest) := by
  obtain ⟨g, rfl⟩ : ∃ g, f = g + 1 := ⟨f - 1, by omega⟩
  have hser : serMCQ q ++ rest = '\x7b' :: (serMCQFields q ++ '\x7d' :: rest) := by
    simp [serMCQ]
  rw [hser, pVal_openBrace]
  have hhead : ∃ t, serMCQFields q ++ '\x7d' :: rest = '\"' :: t := by
    refine ⟨"question".data ++ ['\"'] ++ (':' :: quoteStr q.question
      ++ ',' :: quoteStr "options".data ++ ':' :: serArrStr q.options
      ++ ',' :: quoteStr "correct_option".data ++ ':' :: quoteStr q.correct_option)
      ++ '\x7d' :: rest, ?_⟩
    simp [serMCQFields, quoteStr]
  obtain ⟨t, ht⟩ := hhead
  have hdrop : List.dropWhile jsonWsChar (serMCQFields q ++ '\x7d' :: rest)
      = serMCQFields q ++ '\x7d' :: rest := by
    rw [ht]
    exact dropWhile_cons_neg _ (by decide)
  rw [hdrop]
  have hred : (match serMCQFields q ++ '\x7d' :: rest with
      | '\x7d' :: r2 => some (Json.obj [], r2)
      | r => Option.map (fun p => (Json.obj p.1, p.2)) (pFields g r))
      = Option.map (fun p => (Json.obj p.1, p.2))
          (pFields g (serMCQFields q ++ '\x7d' :: rest)) := by
    rw [ht]
    rfl
  rw [hred, pFields_mcq g q rest hq (by omega)]
  simp [jsonOfMCQ]

/-- Fuel sufficient for parsing one serialized MCQ. -/
def fuelMCQ (q : MCQ) : Nat := q.options.length + 7

/-- Fuel sufficient for parsing the serialized items of a quiz. -/
def fuelQuizItems : List MCQ → Nat
  | [] => 1
  | q :: qs => fuelMCQ q + fuelQuizItems qs + 2

theorem serQuizItems_cons_head (q : MCQ) (qs : List MCQ) :
    ∃ t, serQuizItems (q :: qs) = '\x7b' :: t := by
  cases qs with
  | nil => exact ⟨serMCQFields q ++ ['\x7d'] ++ [']'], by simp [serQuizItems, serMCQ]⟩
  | cons y ys =>
    exact ⟨serMCQFields q ++ ['\x7d'] ++ ',' :: serQuizItems (y :: ys),
      by simp [serQuizItems, serMCQ]⟩

theorem pItems_mcqs (qs : List MCQ) (q : MCQ) (f : Nat) (rest : List Char)
    (hq : plainMCQ q = true) (hqs : qs.all plainMCQ = true)
    (hf : fuelMCQ q + fuelQuizItems qs + 1 ≤ f) :
    pItems f (serQuizItems (q :: qs) ++ rest) = some ((q :: qs).map jsonOfMCQ, rest) := by
  induction qs generalizing q f rest with
  | nil =>
    simp only [fuelQuizItems, fuelMCQ] at hf
    obtain ⟨g, rfl⟩ : ∃ g, f = g + 1 := ⟨f - 1, by omega⟩
    have hser : serQuizItems [q] ++ rest = serMCQ q ++ (']' :: rest) := by
      simp [serQuizItems]
    rw [hser, pItems_succ, pVal_serMCQ g q _ hq (by simp [fuelMCQ] at hf ⊢; omega)]
    simp [dropWhile_cons_neg _ (by decide : jsonWsChar ']' = false)]
  | cons y ys ih =>
    simp only [fuelQuizItems, fuelMCQ] at hf
    obtain ⟨g, rfl⟩ : ∃ g, f = g + 1 := ⟨f - 1, by omega⟩
    rw [List.all_cons, Bool.and_eq_true] at hqs
    have hser : serQuizItems (q :: y :: ys) ++ rest
        = serMCQ q ++ (',' :: (serQuizItems (y :: ys) ++ rest)) := by
      simp [serQuizItems]
    rw [hser, pItems_succ, pVal_serMCQ g q _ hq (by simp [fuelMCQ] at hf ⊢; omega)]
    obtain ⟨t, ht⟩ := serQuizItems_cons_head y ys
    have hdrop : List.dropWhile jsonWsChar (serQuizItems (y :: ys) ++ rest)
        = serQuizItems (y :: ys) ++ rest := by
      rw [ht]
      exact dropWhile_cons_neg _ (by decide)
    simp only [dropWhile_cons_neg _ (by decide : jsonWsChar ',' = false), hdrop]
    rw [ih y g rest hqs.1 hqs.2 (by simp [fuelQuizItems, fuelMCQ] at hf ⊢; omega)]
    simp

theorem pVal_serQuiz (qs : List MCQ) (q : MCQ) (f : Nat) (rest : List Char)
    (hq : plainMCQ q = true) (hqs : qs.all plainMCQ = true)
    (hf : fuelMCQ q + fuelQuizItems qs + 2 ≤ f) :
    pVal f (serQuiz (q :: qs) ++ rest) = some (jsonOfQuiz (q :: qs), rest) := by
  obtain ⟨g, rfl⟩ : ∃ g, f = g + 1 := ⟨f - 1, by omega⟩
  have hser : serQuiz (q :: qs) ++ rest = '[' :: (serQuizItems (q :: qs) ++ rest) := by
    simp [serQuiz]
  rw [hser, pVal_openBracket]
  obtain ⟨t, ht⟩ := serQuizItems_cons_head q qs
  have hdrop : List.dropWhile jsonWsChar (serQuizItems (q :: qs) ++ rest)
      = serQuizItems (q :: qs) ++ rest := by
    rw [ht]
    exact dropWhile_cons_neg _ (by decide)
  rw [hdrop]
  have hred : (match serQuizItems (q :: qs) ++ rest with
      | ']' :: r2 => some (Json.arr [], r2)
      | r => Option.map (fun p => (Json.arr p.1, p.2)) (pItems g r))
      = Option.map (fun p => (Json.arr p.1, p.2))
          (pItems g (serQuizItems (q :: qs) ++ rest)) := by
    rw [ht]
    rfl
  rw [hred, pItems_mcqs qs q g rest hq hqs (by omega)]
  simp [jsonOfQuiz]

/-- A quiz whose strings need no JSON escaping. -/
def plainQuiz (qs : List MCQ) : Bool :=
  qs.all plainMCQ

theorem serItemsStr_length_ge (xs : List (List Char)) :
    xs.length + 1 ≤ (serItemsStr xs).length := by
  induction xs with
  | nil => simp [serItemsStr]
  | cons y ys ih =>
    cases ys with
    | nil => simp [serItemsStr, quoteStr]
    | cons z zs =>
      rw [show serItemsStr (y :: z :: zs) = quoteStr y ++ ',' :: serItemsStr (z :: zs) from rfl]
      simp only [List.length_append, List.length_cons, quoteStr] at ih ⊢
      omega

theorem serMCQ_length_ge (q : MCQ) : q.options.length + 9 ≤ (serMCQ q).length := by
  have h := serItemsStr_length_ge q.options
  simp only [serMCQ, serMCQFields, serArrStr, quoteStr, List.length_append,
    List.length_cons, List.length_nil] at h ⊢
  omega

theorem fuelQuizItems_le (qs : List MCQ) :
    fuelQuizItems qs ≤ 2 * (serQuizItems qs).length := by
  induction qs with
  | nil => simp [fuelQuizItems, serQuizItems]
  | cons q qs ih =>
    have hm := serMCQ_length_ge q
    cases qs with
    | nil =>
      rw [show fuelQuizItems [q] = fuelMCQ q + 1 + 2 from rfl,
        show serQuizItems [q] = serMCQ q ++ [']'] from rfl]
      simp only [fuelMCQ, List.length_append, List.length_cons, List.length_nil]
      omega
    | cons y ys =>
      rw [show fuelQuizItems (q :: y :: ys) = fuelMCQ q + fuelQuizItems (y :: ys) + 2 from rfl,
        show serQuizItems (q :: y :: ys) = serMCQ q ++ ',' :: serQuizItems (y :: ys) from rfl]
      simp only [fuelMCQ, List.length_append, List.length_cons] at ih ⊢
      omega

theorem json_loads_serQuiz (q : MCQ) (qs : List MCQ)
    (hq : plainMCQ q = true) (hqs : qs.all plainMCQ = true) :
    json_loads (serQuiz (q :: qs)) = some (jsonOfQuiz (q :: qs)) := by
  rw [json_loads]
  have hdrop : List.dropWhile jsonWsChar (serQuiz (q :: qs)) = serQuiz (q :: qs) := by
    rw [serQuiz]
    exact dropWhile_cons_neg _ (by decide)
  rw [hdrop]
  have hfuel : fuelMCQ q + fuelQuizItems qs + 2 ≤ 2 * (serQuiz (q :: qs)).length + 2 := by
    have h1 := fuelQuizItems_le (q :: qs)
    rw [show fuelQuizItems (q :: qs) = fuelMCQ q + fuelQuizItems qs + 2 from rfl] at h1
    simp only [serQuiz, List.length_cons] at h1 ⊢
    omega
  have hp := pVal_serQuiz qs q (2 * (serQuiz (q :: qs)).length + 2) [] hq hqs hfuel
  rw [List.append_nil] at hp
  rw [hp]
  simp

theorem pyStrip_noop (a b : Char) (m : List Char)
    (ha : pyWsChar a = false) (hb : pyWsChar b = false) :
    pyStrip (a :: (m ++ [b])) = a :: (m ++ [b]) := by
  rw [pyStrip, dropWhile_cons_neg _ ha]
  have hrev : (a :: (m ++ [b])).reverse = b :: (m.reverse ++ [a]) := by simp
  rw [hrev, dropWhile_cons_neg _ hb, ← hrev, List.reverse_reverse]

theorem serQuizItems_decomp (qs : List MCQ) :
    ∀ q, ∃ mid, serQuizItems (q :: qs) = '\x7b' :: (mid ++ ['\x7d', ']']) := by
  induction qs with
  | nil =>
    intro q
    exact ⟨serMCQFields q, by simp [serQuizItems, serMCQ]⟩
  | cons y ys ih =>
    intro q
    obtain ⟨mid2, hmid2⟩ := ih y
    refine ⟨serMCQFields q ++ '\x7d' :: ',' :: '\x7b' :: mid2, ?_⟩
    rw [show serQuizItems (q :: y :: ys) = serMCQ q ++ ',' :: serQuizItems (y :: ys) from rfl,
      hmid2]
    simp [serMCQ]

theorem findStart_append (pre l : List Char) (h : '[' ∉ pre) :
    findStart (pre ++ l) = findStart l := by
  induction pre with
  | nil => simp
  | cons c cs ih =>
    rw [List.mem_cons, not_or] at h
    rw [List.cons_append,
      show findStart (c :: (cs ++ l))
        = if c = '[' ∧ (List.dropWhile reWsChar (cs ++ l)).head? = some '\x7b'
          then some (c :: (cs ++ l)) else findStart (cs ++ l) from rfl,
      if_neg (fun hcon => (Ne.symm h.1) hcon.1)]
    exact ih h.2

theorem greedyEnd_none (l : List Char) (h : '\x7d' ∉ l) : greedyEnd l = none := by
  induction l with
  | nil => rfl
  | cons c cs ih =>
    rw [List.mem_cons, not_or] at h
    rw [show greedyEnd (c :: cs)
        = if c = '\x7d' then
            (match greedyEnd cs with
              | some m => some (c :: m)
              | none =>
                match List.dropWhile reWsChar cs with
                | ']' :: _ => some (c :: (List.takeWhile reWsChar cs ++ [']']))
                | _ => none)
          else (greedyEnd cs).map (fun m => c :: m) from rfl,
      if_neg (Ne.symm h.1), ih h.2]
    rfl

theorem greedyEnd_complete (m tl : List Char) (h : '\x7d' ∉ tl) :
    greedyEnd (m ++ '\x7d' :: ']' :: tl) = some (m ++ '\x7d' :: [']']) := by
  induction m with
  | nil =>
    have hnone : greedyEnd (']' :: tl) = none := by
      refine greedyEnd_none _ ?_
      rw [List.mem_cons, not_or]
      exact ⟨by decide, h⟩
    rw [List.nil_append,
      show greedyEnd ('\x7d' :: ']' :: tl)
        = if ('\x7d' : Char) = '\x7d' then
            (match greedyEnd (']' :: tl) with
              | some m => some ('\x7d' :: m)
              | none =>
                match List.dropWhile reWsChar (']' :: tl) with
                | ']' :: _ => some ('\x7d' :: (List.takeWhile reWsChar (']' :: tl) ++ [']']))
                | _ => none)
          else (greedyEnd (']' :: tl)).map (fun m => '\x7d' :: m) from rfl,
      if_pos rfl, hnone]
    rw [dropWhile_cons_neg _ (by decide : reWsChar ']' = false),
      takeWhile_cons_neg _ (by decide : reWsChar ']' = false)]
    rfl
  | cons c cs ih =>
    rw [List.cons_append,
      show greedyEnd (c :: (cs ++ '\x7d' :: ']' :: tl))
        = if c = '\x7d' then
            (match greedyEnd (cs ++ '\x7d' :: ']' :: tl) with
              | some m => some (c :: m)
              | none =>
                match List.dropWhile reWsChar (cs ++ '\x7d' :: ']' :: tl) with
                | ']' :: _ =>
                  some (c :: (List.takeWhile reWsChar (cs ++ '\x7d' :: ']' :: tl) ++ [']']))
                | _ => none)
          else (greedyEnd (cs ++ '\x7d' :: ']' :: tl)).map (fun m => c :: m) from rfl,
      ih]
    by_cases hc : c = '\x7d'
    · rw [if_pos hc]
      simp
    · rw [if_neg hc]
      simp

theorem salvageMatch_embedded (pre mid post : List Char)
    (hpre : '[' ∉ pre) (hpost : '\x7d' ∉ post) :
    salvageMatch (pre ++ '[' :: '\x7b' :: (mid ++ '\x7d' :: ']' :: post))
      = some ('[' :: '\x7b' :: (mid ++ '\x7d' :: [']'])) := by
  have hfs : findStart (pre ++ '[' :: '\x7b' :: (mid ++ '\x7d' :: ']' :: post))
      = some ('[' :: '\x7b' :: (mid ++ '\x7d' :: ']' :: post)) := by
    rw [findStart_append _ _ hpre,
      show findStart ('[' :: '\x7b' :: (mid ++ '\x7d' :: ']' :: post))
        = if ('[' : Char) = '['
            ∧ (List.dropWhile reWsChar ('\x7b' :: (mid ++ '\x7d' :: ']' :: post))).head?
              = some '\x7b'
          then some ('[' :: '\x7b' :: (mid ++ '\x7d' :: ']' :: post))
          else findStart ('\x7b' :: (mid ++ '\x7d' :: ']' :: post)) from rfl,
      if_pos]
    rw [dropWhile_cons_neg _ (by decide : reWsChar '\x7b' = false)]
    exact ⟨rfl, rfl⟩
  rw [salvageMatch, hfs]
  simp only [dropWhile_cons_neg _ (by decide : reWsChar '\x7b' = false),
    takeWhile_cons_neg _ (by decide : reWsChar '\x7b' = false),
    greedyEnd_complete mid post hpost]
  simp

theorem takeWhile_all_append (w l : List Char) {p : Char → Bool}
    (hw : ∀ c ∈ w, p c = true) :
    List.takeWhile p (w ++ l) = w ++ List.takeWhile p l := by
  induction w with
  | nil => simp
  | cons c cs ih =>
    rw [List.cons_append, List.takeWhile_cons, if_pos (hw c (by simp)),
      ih (fun d hd => hw d (by simp [hd])), List.cons_append]

theorem greedyEnd_complete_ws (m w tl : List Char)
    (hw : ∀ c ∈ w, reWsChar c = true) (h : '\x7d' ∉ tl) :
    greedyEnd (m ++ '\x7d' :: (w ++ ']' :: tl)) = some (m ++ '\x7d' :: (w ++ [']'])) := by
  induction m with
  | nil =>
    have hnw : '\x7d' ∉ w := fun hc => absurd (hw _ hc) (by decide)
    have hnone : greedyEnd (w ++ ']' :: tl) = none := by
      refine greedyEnd_none _ ?_
      intro hc
      rcases List.mem_append.mp hc with h1 | h1
      · exact hnw h1
      · rcases List.mem_cons.mp h1 with h2 | h2
        · exact absurd h2 (by decide)
        · exact h h2
    rw [List.nil_append,
      show greedyEnd ('\x7d' :: (w ++ ']' :: tl))
        = if ('\x7d' : Char) = '\x7d' then
            (match greedyEnd (w ++ ']' :: tl) with
              | some m2 => some ('\x7d' :: m2)
              | none =>
                match List.dropWhile reWsChar (w ++ ']' :: tl) with
                | ']' :: _ =>
                  some ('\x7d' :: (List.takeWhile reWsChar (w ++ ']' :: tl) ++ [']']))
                | _ => none)
          else (greedyEnd (w ++ ']' :: tl)).map (fun m2 => '\x7d' :: m2) from rfl,
      if_pos rfl, hnone]
    rw [dropWhile_all_append w _ hw, dropWhile_cons_neg _ (by decide : reWsChar ']' = false),
      takeWhile_all_append w _ hw, takeWhile_cons_neg _ (by decide : reWsChar ']' = false)]
    simp
  | cons c cs ih =>
    rw [List.cons_append,
      show greedyEnd (c :: (cs ++ '\x7d' :: (w ++ ']' :: tl)))
        = if c = '\x7d' then
            (match greedyEnd (cs ++ '\x7d' :: (w ++ ']' :: tl)) with
              | some m2 => some (c :: m2)
              | none =>
                match List.dropWhile reWsChar (cs ++ '\x7d' :: (w ++ ']' :: tl)) with
                | ']' :: _ =>
                  some (c :: (List.takeWhile reWsChar (cs ++ '\x7d' :: (w ++ ']' :: tl)) ++ [']']))
                | _ => none)
          else (greedyEnd (cs ++ '\x7d' :: (w ++ ']' :: tl))).map (fun m2 => c :: m2) from rfl,
      ih]
    by_cases hc : c = '\x7d'
    · rw [if_pos hc]
      simp
    · rw [if_neg hc]
      simp

theorem salvageMatch_embedded_ws (pre w1 mid w2 post : List Char)
    (hpre : '[' ∉ pre)
    (hw1 : ∀ c ∈ w1, reWsChar c = true) (hw2 : ∀ c ∈ w2, reWsChar c = true)
    (hpost : '\x7d' ∉ post) :
    salvageMatch (pre ++ '[' :: (w1 ++ '\x7b' :: (mid ++ '\x7d' :: (w2 ++ ']' :: post))))
      = some ('[' :: (w1 ++ '\x7b' :: (mid ++ '\x7d' :: (w2 ++ [']'])))) := by
  have hdw : List.dropWhile reWsChar (w1 ++ '\x7b' :: (mid ++ '\x7d' :: (w2 ++ ']' :: post)))
      = '\x7b' :: (mid ++ '\x7d' :: (w2 ++ ']' :: post)) := by
    rw [dropWhile_all_append w1 _ hw1, dropWhile_cons_neg _ (by decide)]
  have htw : List.takeWhile reWsChar (w1 ++ '\x7b' :: (mid ++ '\x7d' :: (w2 ++ ']' :: post)))
      = w1 := by
    rw [takeWhile_all_append w1 _ hw1,
      takeWhile_cons_neg _ (by decide : reWsChar '\x7b' = false)]
    simp
  have hfs : findStart
      (pre ++ '[' :: (w1 ++ '\x7b' :: (mid ++ '\x7d' :: (w2 ++ ']' :: post))))
      = some ('[' :: (w1 ++ '\x7b' :: (mid ++ '\x7d' :: (w2 ++ ']' :: post)))) := by
    rw [findStart_append _ _ hpre,
      show findStart ('[' :: (w1 ++ '\x7b' :: (mid ++ '\x7d' :: (w2 ++ ']' :: post))))
        = if ('[' : Char) = '['
            ∧ (List.dropWhile reWsChar
                (w1 ++ '\x7b' :: (mid ++ '\x7d' :: (w2 ++ ']' :: post)))).head?
              = some '\x7b'
          then some ('[' :: (w1 ++ '\x7b' :: (mid ++ '\x7d' :: (w2 ++ ']' :: post))))
          else findStart (w1 ++ '\x7b' :: (mid ++ '\x7d' :: (w2 ++ ']' :: post))) from rfl,
      if_pos]
    rw [hdw]
    exact ⟨rfl, rfl⟩
  rw [salvageMatch, hfs]
  simp only [hdw, htw, greedyEnd_complete_ws mid w2 post hw2 hpost]

theorem pVal_letterH (f : Nat) (rest : List Char) : pVal f ('H' :: rest) = none := by
  cases f with
  | zero => rfl
  | succ g => rfl

theorem json_loads_letterH (rest : List Char) : json_loads ('H' :: rest) = none := by
  rw [json_loads, dropWhile_cons_neg _ (by decide : jsonWsChar 'H' = false), pVal_letterH]

theorem json_loads_wrap (p : List Char) : json_loads (wrapModelText p) = none := by
  have h : wrapModelText p
      = 'H' :: ("ere is the quiz you asked for:\n```json\n".data ++ (p ++ wrapPost)) := rfl
  rw [h, json_loads_letterH]

theorem pyStrip_wrap (p : List Char) : pyStrip (wrapModelText p) = wrapModelText p := by
  have h2 : wrapPost = "\n```\nLet me know if you need anything else".data ++ ['.'] := rfl
  have h1 : wrapModelText p
      = 'H' :: (("ere is the quiz you asked for:\n```json\n".data ++ p
        ++ "\n```\nLet me know if you need anything else".data) ++ ['.']) := by
    rw [wrapModelText, h2,
      show wrapPre = 'H' :: "ere is the quiz you asked for:\n```json\n".data from rfl]
    simp
  rw [h1]
  exact pyStrip_noop 'H' '.' _ (by decide) (by decide)

theorem pyStrip_serQuiz (q : MCQ) (qs : List MCQ) :
    pyStrip (serQuiz (q :: qs)) = serQuiz (q :: qs) := by
  obtain ⟨mid, hmid⟩ := serQuizItems_decomp qs q
  have h : serQuiz (q :: qs) = '[' :: (('\x7b' :: (mid ++ ['\x7d'])) ++ [']']) := by
    rw [serQuiz, hmid]
    simp
  rw [h]
  exact pyStrip_noop '[' ']' _ (by decide) (by decide)

theorem parse_quiz_serQuiz (q : MCQ) (qs : List MCQ)
    (hq : plainMCQ q = true) (hqs : qs.all plainMCQ = true) :
    parse_quiz (serQuiz (q :: qs)) = .ok (jsonOfQuiz (q :: qs)) := by
  rw [parse_quiz]
  simp only [pyStrip_serQuiz, json_loads_serQuiz q qs hq hqs]

theorem salvageMatch_wrapSerQuiz (q : MCQ) (qs : List MCQ) :
    salvageMatch (wrapModelText (serQuiz (q :: qs))) = some (serQuiz (q :: qs)) := by
  obtain ⟨mid, hmid⟩ := serQuizItems_decomp qs q
  have h : wrapModelText (serQuiz (q :: qs))
      = wrapPre ++ '[' :: '\x7b' :: (mid ++ '\x7d' :: ']' :: wrapPost) := by
    rw [wrapModelText, serQuiz, hmid]
    simp
  rw [h, salvageMatch_embedded wrapPre mid wrapPost (by decide) (by decide),
    serQuiz, hmid]

theorem parse_quiz_wrapped (q : MCQ) (qs : List MCQ)
    (hq : plainMCQ q = true) (hqs : qs.all plainMCQ = true) :
    parse_quiz (wrapModelText (serQuiz (q :: qs))) = .ok (jsonOfQuiz (q :: qs)) := by
  rw [parse_quiz]
  simp only [pyStrip_wrap, json_loads_wrap, salvageMatch_wrapSerQuiz q qs,
    json_loads_serQuiz q qs hq hqs]

/-- Every valid JSON payload with the syntactic shape of a non-empty array
of objects — `[`, whitespace, a `\x7b ... \x7d` body, whitespace, `]` — is
returned unchanged by the direct strict parse of `parse_quiz`. -/
theorem parse_quiz_arrObj_bare (w1 mid w2 : List Char) (v : Json)
    (h : json_loads ('[' :: (w1 ++ '\x7b' :: (mid ++ '\x7d' :: (w2 ++ [']'])))) = some v) :
    parse_quiz ('[' :: (w1 ++ '\x7b' :: (mid ++ '\x7d' :: (w2 ++ [']'])))) = .ok v := by
  have hform : '[' :: (w1 ++ '\x7b' :: (mid ++ '\x7d' :: (w2 ++ [']'])))
      = '[' :: ((w1 ++ '\x7b' :: (mid ++ '\x7d' :: w2)) ++ [']']) := by
    simp
  have hstrip : pyStrip ('[' :: (w1 ++ '\x7b' :: (mid ++ '\x7d' :: (w2 ++ [']']))))
      = '[' :: (w1 ++ '\x7b' :: (mid ++ '\x7d' :: (w2 ++ [']']))) := by
    rw [hform]
    exact pyStrip_noop '[' ']' _ (by decide) (by decide)
  simp [parse_quiz, hstrip, h]

/-- Every valid JSON payload with the syntactic shape of a non-empty array
of objects, wrapped in the prose-and-fence text, is recovered by the salvage
step of `parse_quiz`: the direct parse fails on the prose, the regex
extracts exactly the payload, and the strict parse of the extract yields the
same value as the bare payload. -/
theorem parse_quiz_arrObj_wrapped (w1 mid w2 : List Char) (v : Json)
    (hw1 : ∀ c ∈ w1, reWsChar c = true) (hw2 : ∀ c ∈ w2, reWsChar c = true)
    (h : json_loads ('[' :: (w1 ++ '\x7b' :: (mid ++ '\x7d' :: (w2 ++ [']'])))) = some v) :
    parse_quiz (wrapModelText ('[' :: (w1 ++ '\x7b' :: (mid ++ '\x7d' :: (w2 ++ [']'])))))
      = .ok v := by
  have hwrapform : wrapModelText ('[' :: (w1 ++ '\x7b' :: (mid ++ '\x7d' :: (w2 ++ [']']))))
      = wrapPre ++ '[' :: (w1 ++ '\x7b' :: (mid ++ '\x7d' :: (w2 ++ ']' :: wrapPost))) := by
    rw [wrapModelText]
    simp
  have hsalvage : salvageMatch
      (wrapModelText ('[' :: (w1 ++ '\x7b' :: (mid ++ '\x7d' :: (w2 ++ [']'])))))
      = some ('[' :: (w1 ++ '\x7b' :: (mid ++ '\x7d' :: (w2 ++ [']'])))) := by
    rw [hwrapform]
    exact salvageMatch_embedded_ws wrapPre w1 mid w2 wrapPost (by decide) hw1 hw2 (by decide)
  rw [parse_quiz]
  simp only [pyStrip_wrap, json_loads_wrap, hsalvage, h]

/-!
Helper lemmas about ASCII case mapping, whitespace and stripping, for the
scoring claims.
-/

theorem toNat_ofNat_small {n : Nat} (h : n < 0xd800) : (Char.ofNat n).toNat = n := by
  unfold Char.ofNat
  split
  · rfl
  · next hn => exact absurd (Or.inl h) hn

theorem pyLowerChar_pyUpperChar (c : Char) : pyLowerChar (pyUpperChar c) = pyLowerChar c := by
  rw [pyUpperChar]
  by_cases h : 97 ≤ c.toNat ∧ c.toNat ≤ 122
  · rw [if_pos h, pyLowerChar, pyLowerChar]
    have ht : (Char.ofNat (c.toNat - 32)).toNat = c.toNat - 32 :=
      toNat_ofNat_small (by omega)
    rw [if_pos (by omega : 65 ≤ (Char.ofNat (c.toNat - 32)).toNat
        ∧ (Char.ofNat (c.toNat - 32)).toNat ≤ 90)]
    rw [if_neg (by omega : ¬ (65 ≤ c.toNat ∧ c.toNat ≤ 90))]
    rw [ht, show c.toNat - 32 + 32 = c.toNat from by omega, Char.ofNat_toNat]
  · rw [if_neg h]

theorem pyLowerChar_idem (c : Char) : pyLowerChar (pyLowerChar c) = pyLowerChar c := by
  by_cases h : 65 ≤ c.toNat ∧ c.toNat ≤ 90
  · have h1 : pyLowerChar c = Char.ofNat (c.toNat + 32) := by
      rw [pyLowerChar, if_pos h]
    have ht : (Char.ofNat (c.toNat + 32)).toNat = c.toNat + 32 :=
      toNat_ofNat_small (by omega)
    rw [h1, pyLowerChar, if_neg (by rw [ht]; omega)]
  · have h1 : pyLowerChar c = c := by
      rw [pyLowerChar, if_neg h]
    rw [h1, h1]

theorem pyWsChar_iff_toNat (c : Char) :
    pyWsChar c = true ↔ (c.toNat = 32 ∨ c.toNat = 9 ∨ c.toNat = 10
      ∨ c.toNat = 13 ∨ c.toNat = 11 ∨ c.toNat = 12) := by
  rw [pyWsChar]
  constructor
  · intro h
    simp only [Bool.or_eq_true, decide_eq_true_eq] at h
    rcases h with ((((h | h) | h) | h) | h) | h <;> subst h <;> simp
  · intro h
    have : c = Char.ofNat c.toNat := (Char.ofNat_toNat c).symm
    rcases h with h | h | h | h | h | h <;>
      · rw [this, h]
        decide

theorem pyWsChar_pyLowerChar (c : Char) : pyWsChar (pyLowerChar c) = pyWsChar c := by
  by_cases h : 65 ≤ c.toNat ∧ c.toNat ≤ 90
  · have h0 : pyLowerChar c = Char.ofNat (c.toNat + 32) := by
      rw [pyLowerChar, if_pos h]
    have ht : (Char.ofNat (c.toNat + 32)).toNat = c.toNat + 32 :=
      toNat_ofNat_small (by omega)
    have h1 : pyWsChar (Char.ofNat (c.toNat + 32)) = false := by
      rw [← Bool.not_eq_true, pyWsChar_iff_toNat, ht]
      omega
    have h2 : pyWsChar c = false := by
      rw [← Bool.not_eq_true, pyWsChar_iff_toNat]
      omega
    rw [h0, h1, h2]
  · have h0 : pyLowerChar c = c := by
      rw [pyLowerChar, if_neg h]
    rw [h0]

theorem pyWsChar_of_caseEquiv (f : Char → Char)
    (hf : ∀ c, pyLowerChar (f c) = pyLowerChar c) (c : Char) :
    pyWsChar (f c) = pyWsChar c := by
  calc pyWsChar (f c) = pyWsChar (pyLowerChar (f c)) := (pyWsChar_pyLowerChar _).symm
    _ = pyWsChar (pyLowerChar c) := by rw [hf c]
    _ = pyWsChar c := pyWsChar_pyLowerChar c

theorem rstrip_ws_append (l w : List Char) (hw : ∀ c ∈ w, pyWsChar c = true) :
    ((l ++ w).reverse.dropWhile pyWsChar).reverse
      = (l.reverse.dropWhile pyWsChar).reverse := by
  rw [List.reverse_append, dropWhile_all_append _ _ (fun c hc => hw c (by simpa using hc))]

theorem pyStrip_append_ws (l w : List Char) (hw : ∀ c ∈ w, pyWsChar c = true) :
    pyStrip (l ++ w) = pyStrip l := by
  rw [pyStrip, pyStrip, List.dropWhile_append]
  by_cases h : (l.dropWhile pyWsChar).isEmpty
  · rw [if_pos h]
    have hwd : List.dropWhile pyWsChar w = [] := by
      rw [show w = w ++ [] from by simp, dropWhile_all_append w [] hw]
      rfl
    rw [hwd]
    rw [List.isEmpty_iff] at h
    rw [h]
  · rw [if_neg h]
    exact rstrip_ws_append _ w hw

theorem pyStrip_ws_append (w l : List Char) (hw : ∀ c ∈ w, pyWsChar c = true) :
    pyStrip (w ++ l) = pyStrip l := by
  rw [pyStrip, pyStrip, dropWhile_all_append w l hw]

theorem dropWhile_map_comm (f : Char → Char) (l : List Char)
    (hws : ∀ c, pyWsChar (f c) = pyWsChar c) :
    List.dropWhile pyWsChar (l.map f) = (List.dropWhile pyWsChar l).map f := by
  induction l with
  | nil => rfl
  | cons c cs ih =>
    rw [List.map_cons, List.dropWhile_cons, List.dropWhile_cons, hws c]
    by_cases h : pyWsChar c = true
    · rw [if_pos h, if_pos h, ih]
    · rw [if_neg h, if_neg h, List.map_cons]

theorem pyStrip_map_comm (f : Char → Char) (l : List Char)
    (hws : ∀ c, pyWsChar (f c) = pyWsChar c) :
    pyStrip (l.map f) = (pyStrip l).map f := by
  rw [pyStrip, pyStrip, dropWhile_map_comm f l hws, ← List.map_reverse,
    dropWhile_map_comm f _ hws, List.map_reverse]

theorem pyLower_map_caseEquiv (f : Char → Char) (l : List Char)
    (hf : ∀ c, pyLowerChar (f c) = pyLowerChar c) :
    pyLower (l.map f) = pyLower l := by
  rw [pyLower, pyLower, List.map_map]
  exact List.map_congr_left (fun c _ => hf c)

theorem evaluate_answer_map_left (f : Char → Char) (x y : List Char)
    (hf : ∀ c, pyLowerChar (f c) = pyLowerChar c) :
    evaluate_answer (x.map f) y = evaluate_answer x y := by
  rw [evaluate_answer, evaluate_answer,
    pyStrip_map_comm f x (pyWsChar_of_caseEquiv f hf),
    pyLower_map_caseEquiv f (pyStrip x) hf]

theorem evaluate_answer_comm (x y : List Char) :
    evaluate_answer x y = evaluate_answer y x := by
  rw [evaluate_answer, evaluate_answer, Bool.beq_comm]

theorem evaluate_answer_ws_left (w1 w2 x y : List Char)
    (h1 : ∀ c ∈ w1, pyWsChar c = true) (h2 : ∀ c ∈ w2, pyWsChar c = true) :
    evaluate_answer (w1 ++ x ++ w2) y = evaluate_answer x y := by
  rw [evaluate_answer, evaluate_answer, List.append_assoc,
    pyStrip_ws_append w1 _ h1, pyStrip_append_ws x w2 h2]

theorem evaluate_answer_refl (x : List Char) : evaluate_answer x x = true := by
  simp [evaluate_answer]

theorem scoreObjective_go (rs : List (List Char × List Char)) (n : Nat)
    (h : ∀ r ∈ rs, evaluate_answer r.1 r.2 = true) :
    rs.foldl (fun score r => if evaluate_answer r.1 r.2 then score + 1 else score) n
      = n + rs.length := by
  induction rs generalizing n with
  | nil => simp
  | cons r rs ih =>
    rw [List.foldl_cons, if_pos (h r (by simp)), ih (n + 1) (fun d hd => h d (by simp [hd]))]
    simp
    omega

theorem scoreObjective_all_correct (rs : List (List Char × List Char))
    (h : ∀ r ∈ rs, evaluate_answer r.1 r.2 = true) :
    scoreObjective rs = rs.length := by
  rw [scoreObjective, scoreObjective_go rs 0 h]
  omega

theorem filterMap_ite_none {α β : Type} (l : List α) (q : α → Bool) (f : α → β) :
    l.filterMap (fun x => if q x = true then none else some (f x))
      = (l.filter (fun x => !(q x))).map f := by
  induction l with
  | nil => rfl
  | cons a as ih =>
    by_cases h : q a = true
    · simp [List.filterMap_cons, List.filter_cons, h, ih]
    · simp [List.filterMap_cons, List.filter_cons, h, ih]

/-!
Concrete data used by the claim theorems.
-/

/-- A well-formed MCQ under the full-text convention: `correct_option` is the
text of the correct option. -/
def parisMCQ4 : MCQ :=
  ⟨"Capital of France?".data,
   ["Paris".data, "London".data, "Rome".data, "Berlin".data], "Paris".data⟩

/-- Model output in exactly the JSON shape the generation prompt requests
(`"correct_option": "A"` — a bare letter — while the options are full
texts), as `generate_quiz` may receive it. -/
def rawLetterQuiz : List Char :=
  "[\x7b\"question\": \"Capital of France?\", \"options\": [\"Paris\", \"London\", \"Rome\", \"Berlin\"], \"correct_option\": \"A\"\x7d]".data

/-- The MCQ record encoded by `rawLetterQuiz`: the letter convention. -/
def letterMCQ : MCQ :=
  ⟨"Capital of France?".data,
   ["Paris".data, "London".data, "Rome".data, "Berlin".data], "A".data⟩

/-- Parseable model output violating the data-model invariant: two options
only, and a `correct_option` matching none of them. -/
def rawBadQuiz : List Char :=
  "[\x7b\"question\": \"q\", \"options\": [\"A\", \"B\"], \"correct_option\": \"C\"\x7d]".data

/-- The MCQ record encoded by `rawBadQuiz`. -/
def badMCQ : MCQ :=
  ⟨"q".data, ["A".data, "B".data], "C".data⟩

/-!
Claim theorems.
-/

/-- Claim C1, counterexample.  The generation prompt's literal example format
(`"correct_option": "A"`) admits quizzes whose `correct_option` is a bare
letter while the options are full texts.  `rawLetterQuiz` is such model
output; `generate_quiz` parses it verbatim, and submitting the exact correct
answer "Paris" (the option the letter `A` designates) as the chosen option
text is scored false, so the score is 0 of 1 rather than perfect. -/
theorem claim1_grading_convention_counterexample :
    parse_quiz rawLetterQuiz = .ok (jsonOfQuiz [letterMCQ])
    ∧ letterMCQ.options.head? = some "Paris".data
    ∧ letterMCQ.correct_option = "A".data
    ∧ evaluate_answer "Paris".data "A".data = false
    ∧ scoreObjective [("Paris".data, "A".data)] = 0 :=
  ⟨rfl, rfl, rfl, by decide, by decide⟩

/-- Claim C1, amended.  Scoring compares the chosen option text with
`correct_option` by case-insensitive trimmed equality, so the end-to-end
scenario yields a perfect score exactly on quizzes following the full-text
convention: whenever every chosen answer equals the question's
`correct_option` up to case and surrounding whitespace, `scoreObjective`
counts every question correct. -/
theorem claim1_grading_convention_amended (qs : List MCQ) (choice : MCQ → List Char)
    (h : ∀ q ∈ qs, pyLower (pyStrip (choice q)) = pyLower (pyStrip q.correct_option)) :
    scoreObjective (qs.map (fun q => (choice q, q.correct_option))) = qs.length := by
  have hlen : (qs.map (fun q => (choice q, q.correct_option))).length = qs.length := by
    simp
  rw [← hlen]
  refine scoreObjective_all_correct _ ?_
  intro r hr
  rw [List.mem_map] at hr
  obtain ⟨q, hq, rfl⟩ := hr
  rw [evaluate_answer]
  simp [h q hq]

/-- Claim C1, witness for the amended theorem at a concrete quiz following
the full-text convention. -/
theorem claim1_grading_convention_witness :
    scoreObjective ([parisMCQ4].map (fun q => (q.correct_option, q.correct_option)))
      = [parisMCQ4].length :=
  claim1_grading_convention_amended [parisMCQ4] (fun q => q.correct_option) (by decide)

/-- Claim C2, counterexample.  The empty array `[]` is a valid JSON array of
objects (vacuously), parses bare to the empty list, yet its wrapped form
fails: the salvage pattern `[\s*\x7b` requires at least one object, so the
fenced payload yields an error instead of the identical list. -/
theorem claim2_salvage_parse_counterexample :
    parse_quiz "[]".data = .ok (.arr [])
    ∧ parse_quiz (wrapModelText "[]".data) = .error .invalidFormat :=
  ⟨rfl, rfl⟩

/-- Claim C2, amended.  For every valid JSON payload with the syntactic
shape of a non-empty array of objects — an opening `[`, optional whitespace,
an object body `\x7b ... \x7d`, optional whitespace, and the closing `]` —
parsing the payload wrapped in leading/trailing prose and a markdown code
fence yields the identical value as parsing the bare payload: the direct
strict parse fails on the prose, and the greedy salvage regex extracts
exactly the payload.  (Every non-empty JSON array whose elements are objects
has this shape; the empty array does not, which is the counterexample.) -/
theorem claim2_salvage_parse_amended (w1 mid w2 : List Char) (v : Json)
    (hw1 : ∀ c ∈ w1, reWsChar c = true) (hw2 : ∀ c ∈ w2, reWsChar c = true)
    (h : json_loads ('[' :: (w1 ++ '\x7b' :: (mid ++ '\x7d' :: (w2 ++ [']'])))) = some v) :
    parse_quiz (wrapModelText ('[' :: (w1 ++ '\x7b' :: (mid ++ '\x7d' :: (w2 ++ [']'])))))
        = .ok v
    ∧ parse_quiz ('[' :: (w1 ++ '\x7b' :: (mid ++ '\x7d' :: (w2 ++ [']'])))) = .ok v :=
  ⟨parse_quiz_arrObj_wrapped w1 mid w2 v hw1 hw2 h, parse_quiz_arrObj_bare w1 mid w2 v h⟩

/-- Claim C2, witness for the amended theorem at the one-object array
`[ \x7b"a": 1\x7d ]`, wrapped and bare. -/
theorem claim2_salvage_parse_witness :
    parse_quiz (wrapModelText "[ \x7b\"a\": 1\x7d ]".data)
        = .ok (.arr [.obj [("a".data, .num "1".data)]])
    ∧ parse_quiz "[ \x7b\"a\": 1\x7d ]".data
        = .ok (.arr [.obj [("a".data, .num "1".data)]]) :=
  claim2_salvage_parse_amended [' '] "\"a\": 1".data [' ']
    (.arr [.obj [("a".data, .num "1".data)]]) (by decide) (by decide) (by rfl)

/-- Claim C3, counterexample.  When both parses fail the code does raise,
but the error does not carry the raw model text: for the non-JSON text
`hello` the raised message is the fixed diagnostic, which does not contain
`hello`; and a trailing-comma payload fails with the decoder's error (no
heuristic repair), which records only the salvaged substring. -/
theorem claim3_parse_failure_counterexample :
    parse_quiz "hello".data = .error .invalidFormat
    ∧ containsSub "hello".data invalidFormatMessage = false
    ∧ parse_quiz "[\x7b\"a\": 1,\x7d]".data
        = .error (.decodeError "[\x7b\"a\": 1,\x7d]".data) :=
  ⟨rfl, by decide, rfl⟩

/-- Claim C3, amended.  Whenever the direct strict parse of the stripped text
fails, quiz parsing fails with no further heuristic repair: with a
`RuntimeError` carrying the fixed message
`Gemini quiz generation error: Gemini returned non-JSON or invalid quiz
format.` when the salvage regex finds no candidate, or with the propagated
JSON decode error (recording the salvaged substring, not the raw text) when
the salvaged substring still fails strict parsing.  Neither error carries
the raw model text. -/
theorem claim3_parse_failure_amended (raw : List Char)
    (h : json_loads (pyStrip raw) = none) :
    (salvageMatch (pyStrip raw) = none → parse_quiz raw = .error .invalidFormat)
    ∧ (∀ sub, salvageMatch (pyStrip raw) = some sub → json_loads sub = none →
        parse_quiz raw = .error (.decodeError sub)) := by
  constructor
  · intro hs
    simp [parse_quiz, h, hs]
  · intro sub hs hj
    simp [parse_quiz, h, hs, hj]

/-- Claim C3, witness for the amended theorem at a concrete non-JSON text. -/
theorem claim3_parse_failure_witness :
    parse_quiz "no json in sight".data = .error .invalidFormat :=
  (claim3_parse_failure_amended "no json in sight".data (by rfl)).1 (by rfl)

/-- Claim C4, counterexample.  A line consisting solely of an enumeration
marker (`1.`) is non-blank before stripping, so it is kept; after marker
stripping it becomes the empty string and is returned, not dropped: the
claimed output would be `["Why is water wet?"]`. -/
theorem claim4_question_list_counterexample :
    parse_question_list "1.\nWhy is water wet?".data 3
      = [[], "Why is water wet?".data] := rfl

/-- Claim C4, amended.  Subjective parsing splits into lines, drops lines
that are blank before any stripping, strips the leading enumeration-marker
characters and surrounding whitespace from each kept line (a marker-only
line therefore yields an empty entry, which is retained), and returns at
most the requested count in the original order; the claimed example holds. -/
theorem claim4_question_list_amended :
    (∀ raw n, parse_question_list raw n = questionListSpec raw n)
    ∧ parse_question_list "1. What is X?\n2) Why Y?\n\n3. How Z?".data 3
        = ["What is X?".data, "Why Y?".data, "How Z?".data] := by
  constructor
  · intro raw n
    rw [parse_question_list, questionListSpec, filterMap_ite_none]
  · rfl

/-- Claim C5.  The subjective-question parsing step is a total function: it
returns at most the requested count for every input, and fewer lines than
requested give a shorter list with no error. -/
theorem claim5_question_list_total :
    (∀ raw n, (parse_question_list raw n).length ≤ n)
    ∧ parse_question_list "1. Only one question".data 3 = ["Only one question".data] := by
  constructor
  · intro raw n
    rw [parse_question_list]
    exact List.length_take_le n _
  · rfl

/-- Claim C6.  Objective scoring is exact case-insensitive equality of the
whitespace-stripped answers: `evaluate_answer` returns true exactly when the
two strings agree after stripping surrounding whitespace and lower-casing,
and in particular identical answers and answers differing only in case
match. -/
theorem claim6_objective_scoring_equality :
    (∀ x y, evaluate_answer x y = true ↔ pyLower (pyStrip x) = pyLower (pyStrip y))
    ∧ evaluate_answer "B".data "B".data = true
    ∧ evaluate_answer "Paris".data "Paris".data = true
    ∧ evaluate_answer "pArIs".data "PARIS".data = true
    ∧ evaluate_answer " B ".data "b".data = true := by
  refine ⟨fun x y => ?_, by decide, by decide, by decide, by decide⟩
  rw [evaluate_answer]
  exact beq_iff_eq

/-- Claim C7, counterexample.  `generate_quiz` returns whatever JSON parses,
with no validation: `rawBadQuiz` is accepted although its record has only
two options and a `correct_option` matching none of them, violating the
data-model invariant. -/
theorem claim7_invariant_counterexample :
    parse_quiz rawBadQuiz = .ok (jsonOfQuiz [badMCQ])
    ∧ badMCQ.options.length ≠ 4
    ∧ badMCQ.correct_option ∉ badMCQ.options :=
  ⟨rfl, by decide, by decide⟩

/-- Claim C7, amended.  Quiz generation performs no schema validation:
whenever the stripped model text parses as JSON, the parsed value — whatever
its shape — is returned verbatim, so the options-length and correct-option
invariants hold only if the model output happens to satisfy them. -/
theorem claim7_no_validation_amended (raw : List Char) (v : Json)
    (h : json_loads (pyStrip raw) = some v) :
    parse_quiz raw = .ok v := by
  simp [parse_quiz, h]

/-- Claim C7, witness for the amended theorem: even a bare empty array — not
a list of question records at all — is returned as the quiz. -/
theorem claim7_no_validation_witness :
    parse_quiz " [] ".data = .ok (.arr []) :=
  claim7_no_validation_amended " [] ".data (.arr []) (by rfl)

/-- Document texts agreeing on their first 10000 characters, with different
trailing content, used to witness the truncation claim. -/
def docSecretOne : List Char :=
  List.replicate 10000 'a' ++ "SECRET TRAILING CONTENT ONE".data

/-- A second document with the same first 10000 characters as
`docSecretOne` but a different tail. -/
def docSecretTwo : List Char :=
  List.replicate 10000 'a' ++ "completely different tail".data

/-- Claim C8.  Only the first 10000 characters of the document are embedded
in the generation prompts, silently and deterministically: two documents
agreeing on that prefix produce identical objective and subjective prompts,
so trailing content beyond the cap cannot influence them. -/
theorem claim8_prompt_prefix_bound (d1 d2 : List Char) (n m : Nat)
    (h : d1.take 10000 = d2.take 10000) :
    quizPrompt d1 n = quizPrompt d2 n ∧ subjectivePrompt d1 m = subjectivePrompt d2 m := by
  constructor
  · rw [quizPrompt, quizPrompt, h]
  · rw [subjectivePrompt, subjectivePrompt, h]

/-- Claim C8, witness: two documents with a common 10000-character prefix
and different secrets in the tail yield identical prompts. -/
theorem claim8_prompt_prefix_bound_witness :
    quizPrompt docSecretOne 5 = quizPrompt docSecretTwo 5
    ∧ subjectivePrompt docSecretOne 3 = subjectivePrompt docSecretTwo 3 := by
  refine claim8_prompt_prefix_bound docSecretOne docSecretTwo 5 3 ?_
  rw [docSecretOne, docSecretTwo,
    List.take_left' (List.length_replicate 10000 'a'),
    List.take_left' (List.length_replicate 10000 'a')]

/-- Claim C9.  The `lstrip` marker set removes every leading character drawn
from digits, `)`, `.` and space, whether or not it is an enumeration marker:
any prefix of marker-set characters is removed along with the marker, and in
particular a question starting with a year loses it. -/
theorem claim9_marker_overstripping :
    (∀ pre rest, (∀ c ∈ pre, markerChar c = true) →
      List.dropWhile markerChar (pre ++ rest) = List.dropWhile markerChar rest)
    ∧ parse_question_list "1. 2021 was notable why?".data 3 = ["was notable why?".data] :=
  ⟨fun pre rest h => dropWhile_all_append pre rest h, rfl⟩

/-- Claim C9, witness for the universally quantified part at a concrete
marker prefix. -/
theorem claim9_marker_overstripping_witness :
    List.dropWhile markerChar ("12) ".data ++ "Go on?".data)
      = List.dropWhile markerChar "Go on?".data :=
  claim9_marker_overstripping.1 "12) ".data "Go on?".data (by decide)

/-- Claim C10.  Objective scoring is symmetric in its two arguments, and its
result is unchanged by adding surrounding whitespace to either argument or
by applying any case-change (any character map that preserves lower-cased
characters) to either argument. -/
theorem claim10_scoring_invariances (x y w1 w2 : List Char) (f g : Char → Char)
    (hw1 : ∀ c ∈ w1, pyWsChar c = true) (hw2 : ∀ c ∈ w2, pyWsChar c = true)
    (hf : ∀ c, pyLowerChar (f c) = pyLowerChar c)
    (hg : ∀ c, pyLowerChar (g c) = pyLowerChar c) :
    evaluate_answer x y = evaluate_answer y x
    ∧ evaluate_answer (w1 ++ x ++ w2) y = evaluate_answer x y
    ∧ evaluate_answer x (w1 ++ y ++ w2) = evaluate_answer x y
    ∧ evaluate_answer (x.map f) y = evaluate_answer x y
    ∧ evaluate_answer x (y.map g) = evaluate_answer x y := by
  refine ⟨evaluate_answer_comm x y, evaluate_answer_ws_left w1 w2 x y hw1 hw2, ?_, 
    evaluate_answer_map_left f x y hf, ?_⟩
  · rw [evaluate_answer_comm x (w1 ++ y ++ w2),
      evaluate_answer_ws_left w1 w2 y x hw1 hw2, evaluate_answer_comm y x]
  · rw [evaluate_answer_comm x (y.map g), evaluate_answer_map_left g y x hg,
      evaluate_answer_comm y x]

/-- Claim C10, witness at concrete strings, whitespace and the ASCII
upper/lower-case maps. -/
theorem claim10_scoring_invariances_witness :
    evaluate_answer "Paris".data " PARIS ".data = evaluate_answer " PARIS ".data "Paris".data
    ∧ evaluate_answer ([' '] ++ "Paris".data ++ ['\t']) " PARIS ".data
        = evaluate_answer "Paris".data " PARIS ".data
    ∧ evaluate_answer "Paris".data ([' '] ++ " PARIS ".data ++ ['\t'])
        = evaluate_answer "Paris".data " PARIS ".data
    ∧ evaluate_answer ("Paris".data.map pyUpperChar) " PARIS ".data
        = evaluate_answer "Paris".data " PARIS ".data
    ∧ evaluate_answer "Paris".data (" PARIS ".data.map pyLowerChar)
        = evaluate_answer "Paris".data " PARIS ".data :=
  claim10_scoring_invariances "Paris".data " PARIS ".data [' '] ['\t'] pyUpperChar pyLowerChar
    (by decide) (by decide) pyLowerChar_pyUpperChar pyLowerChar_idem
